import Mathlib

/-!
Verification of the Firewheel audio-graph core against its specification.

This file shallowly embeds the Rust sources of `firewheel-graph`
(`processor.rs` and `basic_nodes/beep_test.rs`) in Lean 4 and proves the
spec claims about them.

Modelling conventions:
* `f32`/`f64` sample values are modelled as `ℚ`; float rounding is not
  modelled (none of the verified claims depends on rounding).
* Code living in the `firewheel_core` crate or in `graph.rs` is not part of
  the sources under verification; where needed it is modelled from the
  specification (marked `Modelled from the spec:`).
* Panics (`assert!`, `unwrap`) are modelled by `Option`: `none` means the
  audio thread panicked.
-/

namespace Firewheel

/-- Rust `f32::clamp(lo, hi)` on our rational model of `f32`
(for `lo ≤ hi`, and ignoring NaN, Rust clamp is `max lo (min x hi)`). -/
def clampQ (x lo hi : ℚ) : ℚ := max lo (min x hi)

/-- Rust `f32::fract` (`self - self.trunc()`, truncation towards zero). -/
def fract (q : ℚ) : ℚ := if 0 ≤ q then q - ⌊q⌋ else q - ⌈q⌉

/-! ## BeepTest node (`basic_nodes/beep_test.rs`)

The oscillator writes `(phasor * TAU).sin() * gain`.  The sine function and
the constant TAU live outside the verified sources (`std`), so the model is
parametrised by an arbitrary `sinT : ℚ → ℚ` and `tau : ℚ`; no claim below
depends on their values. -/

/-- Modelled from the spec: `firewheel_core::util::clear_all_outputs` zeroes
the first `frames` samples of every channel handed to it.  (Per the spec,
the silence mask only lets the helper *skip* channels that are already
known-silent, which has no observable effect when the mask is truthful, so
the model clears every channel and ignores the mask.) -/
def clear_all_outputs (frames : Nat) (outputs : List (List ℚ))
    (_out_silence_mask : Nat) : List (List ℚ) :=
  outputs.map fun o => List.replicate (min frames o.length) 0 ++ o.drop frames

/-- State of `BeepTestProcessor` (`beep_test.rs` lines 67-72).  The shared
`Arc<AtomicBool>` enable flag is modelled as the `Bool` value observed by
the relaxed atomic load during the call. -/
structure BeepTestProcessor where
  enabled : Bool
  phasor : ℚ
  phasor_inc : ℚ
  gain : ℚ
deriving DecidableEq, Repr

/-- The oscillator loop of `BeepTestProcessor::process` (lines 93-96):
produces the `frames` generated samples and the final phasor value. -/
def genBlock (sinT : ℚ → ℚ) (tau gain : ℚ) : ℚ → ℚ → Nat → List ℚ × ℚ
  | ph, _inc, 0 => ([], ph)
  | ph, inc, n + 1 =>
    let s := sinT (ph * tau) * gain
    let r := genBlock sinT tau gain (fract (ph + inc)) inc n
    (s :: r.1, r.2)

/-- Model of `BeepTestProcessor::process` (`beep_test.rs` lines 75-101).  Output
channels are lists of length `MBF ≥ frames`; writing `out[..frames]`
becomes prepending the written block to `out.drop frames`. -/
def BeepTestProcessor.process (sinT : ℚ → ℚ) (tau : ℚ) (p : BeepTestProcessor)
    (frames : Nat) (outputs : List (List ℚ)) (out_silence_mask : Nat) :
    BeepTestProcessor × List (List ℚ) :=
  match outputs with
  | [] => (p, [])
  | out1 :: rest =>
    if p.enabled = false then
      (p, out1 :: clear_all_outputs frames rest out_silence_mask)
    else
      let g := genBlock sinT tau p.gain p.phasor p.phasor_inc frames
      ({ p with phasor := g.2 },
        (g.1 ++ out1.drop frames) :: rest.map fun o => g.1 ++ o.drop frames)

/-- Model of `BeepTestNode` (`beep_test.rs` lines 11-15). -/
structure BeepTestNode where
  enabled : Bool
  freq_hz : ℚ
  gain : ℚ
deriving DecidableEq, Repr

/-- Model of `BeepTestNode::new` (lines 18-27).  The decibel conversion
`db_to_gain_clamped_neg_100_db` lives in `firewheel_core`, outside the
verified sources, so it is an arbitrary parameter `dbToGain`. -/
def BeepTestNode.new (dbToGain : ℚ → ℚ) (freq_hz gain_db : ℚ)
    (enabled : Bool) : BeepTestNode :=
  { freq_hz := clampQ freq_hz 20 20000
    gain := clampQ (dbToGain gain_db) 0 1
    enabled }

/-- Model of `BeepTestNode::activate` (lines 52-64): builds the processor. -/
def BeepTestNode.activate (n : BeepTestNode) (sample_rate : ℚ) :
    BeepTestProcessor :=
  { enabled := n.enabled
    phasor := 0
    phasor_inc := n.freq_hz / sample_rate
    gain := n.gain }

theorem genBlock_fst_length (sinT : ℚ → ℚ) (tau gain : ℚ) :
    ∀ (n : Nat) (ph inc : ℚ), (genBlock sinT tau gain ph inc n).1.length = n := by
  intro n
  induction n with
  | zero => intro ph inc; rfl
  | succ m ih => intro ph inc; simpa [genBlock] using ih (fract (ph + inc)) inc

/-- Claim C1, counterexample.  A disabled `BeepTestProcessor` does *not*
produce all-zero output: with a single output channel whose buffer holds
`5`, `process` leaves that first channel untouched, so the output contains
the sample `5 ≠ 0`. -/
theorem beep_disabled_first_channel_not_zeroed :
    (BeepTestProcessor.process (fun q => q) 0
        { enabled := false, phasor := 0, phasor_inc := 0, gain := 1 }
        1 [[5]] 0).2 = [[5]] ∧ (5 : ℚ) ≠ 0 := by
  constructor
  · rfl
  · norm_num

/-- Claim C1, amended.  When a `BeepTestProcessor` is disabled, `process`
zeroes the first `frames` samples of every output channel *after the
first*, and leaves the first output channel (and the processor state)
unmodified: the disabled branch runs after `split_first_mut`, so
`clear_all_outputs` only sees the remaining channels. -/
theorem beep_disabled_clears_later_channels (sinT : ℚ → ℚ) (tau : ℚ)
    (p : BeepTestProcessor) (frames : Nat) (out1 : List ℚ)
    (rest : List (List ℚ)) (mask : Nat) (h : p.enabled = false) :
    p.process sinT tau frames (out1 :: rest) mask =
      (p, out1 :: rest.map fun o =>
        List.replicate (min frames o.length) 0 ++ o.drop frames) := by
  simp [BeepTestProcessor.process, h, clear_all_outputs]

/-- Claim C1, amended, witness. -/
theorem beep_disabled_clears_later_channels_witness :
    BeepTestProcessor.process (fun q => q) 0
        { enabled := false, phasor := 0, phasor_inc := 0, gain := 1 }
        1 [[5], [3, 4], [6]] 0 =
      ({ enabled := false, phasor := 0, phasor_inc := 0, gain := 1 },
        [[5], [0, 4], [0]]) := by
  have h := beep_disabled_clears_later_channels (fun q => q) 0
    { enabled := false, phasor := 0, phasor_inc := 0, gain := 1 }
    1 [5] [[3, 4], [6]] 0 rfl
  rw [h]
  rfl

/-- Claim C9.  When the processor is enabled and there is at least one
output channel, every output channel after the first holds exactly the same
first `frames` samples as the first output channel. -/
theorem beep_enabled_copies_first_channel (sinT : ℚ → ℚ) (tau : ℚ)
    (p : BeepTestProcessor) (frames : Nat) (out1 : List ℚ)
    (rest : List (List ℚ)) (mask : Nat) (h : p.enabled = true) :
    ∀ c ∈ ((p.process sinT tau frames (out1 :: rest) mask).2.drop 1),
      c.take frames =
        ((p.process sinT tau frames (out1 :: rest) mask).2.headI).take frames := by
  intro c hc
  have hp : (p.process sinT tau frames (out1 :: rest) mask).2 =
      ((genBlock sinT tau p.gain p.phasor p.phasor_inc frames).1 ++
          out1.drop frames) ::
        rest.map fun o =>
          (genBlock sinT tau p.gain p.phasor p.phasor_inc frames).1 ++
            o.drop frames := by
    simp [BeepTestProcessor.process, h]
  rw [hp] at hc ⊢
  simp only [List.drop_one, List.tail_cons, List.mem_map] at hc
  obtain ⟨o, -, hco⟩ := hc
  have hlen := genBlock_fst_length sinT tau p.gain frames p.phasor p.phasor_inc
  rw [← hco]
  simp only [List.headI]
  rw [List.take_left' hlen, List.take_left' hlen]

/-- Claim C9, witness: both later channels of a concrete enabled run agree
with the first channel on the first `frames` samples. -/
theorem beep_enabled_copies_first_channel_witness :
    ([3, 3, 7] : List ℚ).take 2 =
      ((BeepTestProcessor.process (fun _ => 3) 0
          { enabled := true, phasor := 0, phasor_inc := 0, gain := 1 }
          2 [[9, 9, 9], [7, 7, 7], [8, 8]] 0).2.headI).take 2 ∧
    ([3, 3] : List ℚ).take 2 =
      ((BeepTestProcessor.process (fun _ => 3) 0
          { enabled := true, phasor := 0, phasor_inc := 0, gain := 1 }
          2 [[9, 9, 9], [7, 7, 7], [8, 8]] 0).2.headI).take 2 :=
  ⟨beep_enabled_copies_first_channel (fun _ => 3) 0
      { enabled := true, phasor := 0, phasor_inc := 0, gain := 1 }
      2 [9, 9, 9] [[7, 7, 7], [8, 8]] 0 rfl [3, 3, 7]
      (by norm_num [BeepTestProcessor.process, genBlock, fract]),
    beep_enabled_copies_first_channel (fun _ => 3) 0
      { enabled := true, phasor := 0, phasor_inc := 0, gain := 1 }
      2 [9, 9, 9] [[7, 7, 7], [8, 8]] 0 rfl [3, 3]
      (by norm_num [BeepTestProcessor.process, genBlock, fract])⟩

/-- Claim C10.  `BeepTestNode::new` clamps `freq_hz` into `[20, 20000]` and
the linear gain into `[0, 1]`, whatever the decibel conversion returns, and
`activate` hands exactly these stored values to the processor it creates
(`gain` verbatim, `freq_hz` as the phasor increment `freq_hz / sample_rate`),
so every processor it creates has its gain in `[0, 1]`. -/
theorem beep_new_clamps_and_activate_inherits (dbToGain : ℚ → ℚ)
    (freq_hz gain_db : ℚ) (enabled : Bool) (sample_rate : ℚ) :
    20 ≤ (BeepTestNode.new dbToGain freq_hz gain_db enabled).freq_hz ∧
    (BeepTestNode.new dbToGain freq_hz gain_db enabled).freq_hz ≤ 20000 ∧
    0 ≤ (BeepTestNode.new dbToGain freq_hz gain_db enabled).gain ∧
    (BeepTestNode.new dbToGain freq_hz gain_db enabled).gain ≤ 1 ∧
    ((BeepTestNode.new dbToGain freq_hz gain_db enabled).activate
        sample_rate).gain =
      (BeepTestNode.new dbToGain freq_hz gain_db enabled).gain ∧
    ((BeepTestNode.new dbToGain freq_hz gain_db enabled).activate
        sample_rate).phasor_inc =
      (BeepTestNode.new dbToGain freq_hz gain_db enabled).freq_hz /
        sample_rate ∧
    0 ≤ ((BeepTestNode.new dbToGain freq_hz gain_db enabled).activate
        sample_rate).gain ∧
    ((BeepTestNode.new dbToGain freq_hz gain_db enabled).activate
        sample_rate).gain ≤ 1 := by
  refine ⟨le_max_left _ _, max_le (by norm_num) (min_le_right _ _),
    le_max_left _ _, max_le (by norm_num) (min_le_right _ _), rfl, rfl,
    le_max_left _ _, max_le (by norm_num) (min_le_right _ _)⟩

/-! ## Processor data model (`processor.rs`)

The node processors stored in the `thunderdome::Arena` and the user context
are opaque to `processor.rs`, so the model is parametrised by their types
`π` and `κ`.  The arena is an association list keyed by the `thunderdome`
index value (slot + generation encoded as one `Nat`). -/

variable {π κ : Type}

/-- Field `NodeID.idx` is the node's `thunderdome::Index`; two distinct node
incarnations never share it (the generation is part of the index). -/
structure NodeID where
  idx : Nat
deriving DecidableEq, Repr

/-- Modelled from the spec: the compiled `Schedule` (`graph.rs`, not among
the verified sources) is opaque to the processor except for the
compile-time bound `max_block_frames()` that `poll_messages` asserts on. -/
structure Schedule where
  max_block_frames : Nat
deriving DecidableEq, Repr

/-- Model of `ScheduleHeapData` (declared in `graph.rs`; field set as used by
`processor.rs` and described in spec §3): the schedule, the processors to
install, the node ids to evict, and the scratch vector the processor fills
with the evicted processors. -/
structure ScheduleHeapData (π : Type) where
  schedule : Schedule
  new_node_processors : List (NodeID × π)
  nodes_to_remove : List NodeID
  removed_node_processors : List (NodeID × π)
deriving DecidableEq

/-- Model of `ContextToProcessorMsg` (`processor.rs` lines 237-240). -/
inductive ContextToProcessorMsg (π : Type) : Type
  | newSchedule (s : ScheduleHeapData π)
  | stop
deriving DecidableEq

/-- Model of `ProcessorToContextMsg` (`processor.rs` lines 242-249). -/
inductive ProcessorToContextMsg (π κ : Type) : Type
  | returnSchedule (s : ScheduleHeapData π)
  | dropped (nodes : List (Nat × π)) (schedule_data : Option (ScheduleHeapData π))
      (user_cx : Option κ)
deriving DecidableEq

/-- Model of `StreamInfo` (from `firewheel_core`, modelled from the spec: sample
rate, max block frames, channel counts; immutable for the processor's
lifetime). -/
structure StreamInfo where
  sample_rate : Nat
  max_block_frames : Nat
  num_in_channels : Nat
  num_out_channels : Nat
deriving DecidableEq, Repr

/-- Model of the `FirewheelProcessor` state (`processor.rs` lines 16-29).  The `rtrb`
endpoints are modelled by: `from_graph_rx`, a list of message batches
(one batch per `poll_messages` call, modelling asynchronous arrival at
sub-block boundaries); and `to_graph_tx` plus its ring-buffer capacity
`to_graph_cap`. -/
structure FirewheelProcessor (π κ : Type) where
  nodes : List (Nat × π)
  schedule_data : Option (ScheduleHeapData π)
  user_cx : Option κ
  from_graph_rx : List (List (ContextToProcessorMsg π))
  to_graph_tx : List (ProcessorToContextMsg π κ)
  to_graph_cap : Nat
  running : Bool
  stream_info : StreamInfo
deriving DecidableEq

/-- Model of `FirewheelProcessor::new` (lines 32-48). -/
def FirewheelProcessor.new (from_graph_rx : List (List (ContextToProcessorMsg π)))
    (to_graph_cap : Nat) (_node_capacity : Nat) (stream_info : StreamInfo)
    (user_cx : κ) : FirewheelProcessor π κ :=
  { nodes := []
    schedule_data := none
    user_cx := some user_cx
    from_graph_rx
    to_graph_tx := []
    to_graph_cap
    running := true
    stream_info }

/-- Model of the `thunderdome::Arena` lookup by index. -/
def arenaLookup : List (Nat × π) → Nat → Option π
  | [], _ => none
  | (k, p) :: rest, i => if k = i then some p else arenaLookup rest i

/-- Model of `thunderdome::Arena::remove`: removes the entry at the given index and
returns it. -/
def arenaRemove : List (Nat × π) → Nat → Option (π × List (Nat × π))
  | [], _ => none
  | (k, p) :: rest, i =>
    if k = i then some (p, rest)
    else
      match arenaRemove rest i with
      | some (q, rest') => some (q, (k, p) :: rest')
      | none => none

/-- Model of `thunderdome::Arena::insert_at`, composed with the
`assert!(..is_none())` at `processor.rs` line 170: `none` models the assert
firing because the slot was already occupied. -/
def arenaInsertAt (a : List (Nat × π)) (i : Nat) (p : π) :
    Option (List (Nat × π)) :=
  match arenaLookup a i with
  | some _ => none
  | none => some (a ++ [(i, p)])

/-- The removal loop of `poll_messages` (lines 156-162): evict each node in
`nodes_to_remove` that is present, collecting `(node_id, processor)` pairs
in iteration order. -/
def removeNodes (a : List (Nat × π)) :
    List NodeID → List (Nat × π) × List (NodeID × π)
  | [] => (a, [])
  | id :: rest =>
    match arenaRemove a id.idx with
    | some (p, a') =>
      let r := removeNodes a' rest
      (r.1, (id, p) :: r.2)
    | none => removeNodes a rest

/-- The installation loop of `poll_messages` (lines 169-171): insert every
new `(node_id, processor)` pair, asserting no collision. -/
def insertAll (a : List (Nat × π)) :
    List (NodeID × π) → Option (List (Nat × π))
  | [] => some a
  | (id, p) :: rest =>
    match arenaInsertAt a id.idx p with
    | some a' => insertAll a' rest
    | none => none

/-- Model of `rtrb::Producer::push` on the outbound queue: fails (without blocking)
when the ring buffer is full. -/
def tryPush (st : FirewheelProcessor π κ) (m : ProcessorToContextMsg π κ) :
    Option (FirewheelProcessor π κ) :=
  if st.to_graph_tx.length < st.to_graph_cap then
    some { st with to_graph_tx := st.to_graph_tx ++ [m] }
  else none

/-- One iteration of the `poll_messages` match (lines 142-178).  `none`
models a panic: the `max_block_frames` assert (145-148), the
`ReturnSchedule` push `.unwrap()` (164-166), or the `insert_at` assert
(170). -/
def handleMsg (st : FirewheelProcessor π κ) :
    ContextToProcessorMsg π → Option (FirewheelProcessor π κ)
  | .stop => some { st with running := false }
  | .newSchedule new =>
    if new.schedule.max_block_frames = st.stream_info.max_block_frames then
      match st.schedule_data with
      | some old =>
        let r := removeNodes st.nodes new.nodes_to_remove
        let old' : ScheduleHeapData π :=
          { old with removed_node_processors :=
              new.removed_node_processors ++ r.2 }
        (tryPush { st with nodes := r.1 }
            (.returnSchedule old')).bind fun st1 =>
          (insertAll st1.nodes new.new_node_processors).map fun nodes' =>
            { st1 with
              nodes := nodes'
              schedule_data := some
                { new with
                  new_node_processors := []
                  removed_node_processors := old.removed_node_processors } }
      | none =>
        (insertAll st.nodes new.new_node_processors).map fun nodes' =>
          { st with
            nodes := nodes'
            schedule_data := some { new with new_node_processors := [] } }
    else none

/-- The drain loop of `poll_messages` over one batch of queued messages. -/
def pollBatch (st : FirewheelProcessor π κ) :
    List (ContextToProcessorMsg π) → Option (FirewheelProcessor π κ)
  | [] => some st
  | m :: rest => (handleMsg st m).bind (pollBatch · rest)

/-- Model of `poll_messages` (lines 141-180): drains every message that has arrived
on `from_graph_rx` (the head batch of the modelled queue). -/
def pollMessages (st : FirewheelProcessor π κ) :
    Option (FirewheelProcessor π κ) :=
  match st.from_graph_rx with
  | [] => some st
  | batch :: rest => pollBatch { st with from_graph_rx := rest } batch

/-- Model of `Drop for FirewheelProcessor` (lines 223-235): move the arena and the
schedule into a `Dropped` message; a failed push is discarded (`let _ =`). -/
def FirewheelProcessor.drop (st : FirewheelProcessor π κ) :
    FirewheelProcessor π κ :=
  let msg := ProcessorToContextMsg.dropped st.nodes st.schedule_data st.user_cx
  let st1 : FirewheelProcessor π κ :=
    { st with nodes := [], schedule_data := none, user_cx := none }
  match tryPush st1 msg with
  | some st2 => st2
  | none => st1

/-! ### Arena lemmas -/

theorem arenaLookup_append_left {a : List (Nat × π)} {i : Nat} {p : π}
    (h : arenaLookup a i = some p) (b : List (Nat × π)) :
    arenaLookup (a ++ b) i = some p := by
  induction a with
  | nil => simp [arenaLookup] at h
  | cons kv rest ih =>
    obtain ⟨k, q⟩ := kv
    by_cases hk : k = i
    · simp_all [arenaLookup]
    · simp only [arenaLookup, hk, if_false] at h
      simpa [arenaLookup, hk] using ih h

theorem arenaLookup_append_self {a : List (Nat × π)} {i : Nat}
    (h : arenaLookup a i = none) (p : π) :
    arenaLookup (a ++ [(i, p)]) i = some p := by
  induction a with
  | nil => simp [arenaLookup]
  | cons kv rest ih =>
    obtain ⟨k, q⟩ := kv
    by_cases hk : k = i
    · simp [arenaLookup, hk] at h
    · simp only [arenaLookup, hk, if_false] at h
      simpa [arenaLookup, hk] using ih h

theorem arenaLookup_eq_none_of_not_mem {a : List (Nat × π)} {i : Nat}
    (h : i ∉ a.map Prod.fst) : arenaLookup a i = none := by
  induction a with
  | nil => rfl
  | cons kv rest ih =>
    obtain ⟨k, q⟩ := kv
    simp only [List.map_cons, List.mem_cons] at h
    push_neg at h
    simp only [arenaLookup, Ne.symm h.1, if_false]
    exact ih h.2

/-- Characterization of a successful `Arena::remove`: the removed value is
the stored one; other indices are unaffected; the key set shrinks; with the
arena's unique-key invariant, the removed index is gone. -/
theorem arenaRemove_spec {a : List (Nat × π)} {i : Nat}
    {pr : π × List (Nat × π)} (h : arenaRemove a i = some pr) :
    arenaLookup a i = some pr.1 ∧
    (∀ j, j ≠ i → arenaLookup pr.2 j = arenaLookup a j) ∧
    List.Sublist (pr.2.map Prod.fst) (a.map Prod.fst) ∧
    ((a.map Prod.fst).Nodup → arenaLookup pr.2 i = none) := by
  induction a generalizing pr with
  | nil => simp [arenaRemove] at h
  | cons kv rest ih =>
    obtain ⟨k, q⟩ := kv
    by_cases hk : k = i
    · simp only [arenaRemove, hk, if_true] at h
      have hpr := Option.some.inj h
      subst hpr
      subst hk
      refine ⟨by simp [arenaLookup], ?_, ?_, ?_⟩
      · intro j hj
        simp [arenaLookup, Ne.symm hj]
      · exact List.Sublist.cons _ (List.Sublist.refl _)
      · intro hnd
        simp only [List.map_cons, List.nodup_cons] at hnd
        exact arenaLookup_eq_none_of_not_mem hnd.1
    · simp only [arenaRemove, hk, if_false] at h
      cases hrec : arenaRemove rest i with
      | none => rw [hrec] at h; exact absurd h (by simp)
      | some pr0 =>
        obtain ⟨q', rest'⟩ := pr0
        rw [hrec] at h
        have hpr := Option.some.inj h
        subst hpr
        obtain ⟨ih1, ih2, ih3, ih4⟩ := ih hrec
        refine ⟨?_, ?_, ?_, ?_⟩
        · simpa [arenaLookup, hk] using ih1
        · intro j hj
          by_cases hkj : k = j
          · simp [arenaLookup, hkj]
          · simpa [arenaLookup, hkj] using ih2 j hj
        · simpa using ih3.cons₂ k
        · intro hnd
          simp only [List.map_cons, List.nodup_cons] at hnd
          simpa [arenaLookup, hk] using ih4 hnd.2

theorem arenaRemove_eq_none {a : List (Nat × π)} {i : Nat}
    (h : arenaRemove a i = none) : arenaLookup a i = none := by
  induction a with
  | nil => rfl
  | cons kv rest ih =>
    obtain ⟨k, q⟩ := kv
    by_cases hk : k = i
    · simp [arenaRemove, hk] at h
    · simp only [arenaRemove, hk, if_false] at h
      simp only [arenaLookup, hk, if_false]
      cases hrec : arenaRemove rest i with
      | none => exact ih hrec
      | some pr => obtain ⟨q', r'⟩ := pr; rw [hrec] at h; exact absurd h (by simp)

theorem arenaInsertAt_spec {a : List (Nat × π)} {i : Nat} {p : π}
    {a' : List (Nat × π)} (h : arenaInsertAt a i p = some a') :
    arenaLookup a i = none ∧ a' = a ++ [(i, p)] := by
  unfold arenaInsertAt at h
  cases hl : arenaLookup a i with
  | none => rw [hl] at h; exact ⟨rfl, (Option.some.inj h).symm⟩
  | some v => rw [hl] at h; exact absurd h (by simp)

theorem removeNodes_lookup_none {ids : List NodeID} :
    ∀ {a : List (Nat × π)} {j : Nat}, arenaLookup a j = none →
      arenaLookup (removeNodes a ids).1 j = none := by
  induction ids with
  | nil => intro a j h; exact h
  | cons hd tl ih =>
    intro a j h
    cases hrem : arenaRemove a hd.idx with
    | none => simpa [removeNodes, hrem] using ih h
    | some pr =>
      obtain ⟨p, a'⟩ := pr
      have hspec := arenaRemove_spec hrem
      have hj : j ≠ hd.idx := by
        intro hji
        subst hji
        rw [h] at hspec
        exact absurd hspec.1 (by simp)
      have : arenaLookup a' j = none := by rw [hspec.2.1 j hj]; exact h
      simpa [removeNodes, hrem] using ih this

theorem removeNodes_keys_sublist (ids : List NodeID) :
    ∀ a : List (Nat × π),
      List.Sublist ((removeNodes a ids).1.map Prod.fst) (a.map Prod.fst) := by
  induction ids with
  | nil => intro a; exact List.Sublist.refl _
  | cons hd tl ih =>
    intro a
    cases hrem : arenaRemove a hd.idx with
    | none => simpa [removeNodes, hrem] using ih a
    | some pr =>
      obtain ⟨p, a'⟩ := pr
      have hspec := arenaRemove_spec hrem
      have h1 := ih a'
      simpa [removeNodes, hrem] using h1.trans hspec.2.2.1

theorem removeNodes_lookup_removed {ids : List NodeID} {id : NodeID} :
    ∀ {a : List (Nat × π)}, (a.map Prod.fst).Nodup → id ∈ ids →
      arenaLookup (removeNodes a ids).1 id.idx = none := by
  induction ids with
  | nil => intro a _ h; exact absurd h (List.not_mem_nil id)
  | cons hd tl ih =>
    intro a hnd hmem
    cases hrem : arenaRemove a hd.idx with
    | none =>
      rcases List.mem_cons.mp hmem with rfl | hmem'
      · simpa [removeNodes, hrem] using
          removeNodes_lookup_none (arenaRemove_eq_none hrem)
      · simpa [removeNodes, hrem] using ih hnd hmem'
    | some pr =>
      obtain ⟨p, a'⟩ := pr
      have hspec := arenaRemove_spec hrem
      have hnd' : (a'.map Prod.fst).Nodup := hnd.sublist hspec.2.2.1
      rcases List.mem_cons.mp hmem with rfl | hmem'
      · simpa [removeNodes, hrem] using
          removeNodes_lookup_none (hspec.2.2.2 hnd)
      · simpa [removeNodes, hrem] using ih hnd' hmem'

theorem removeNodes_mem {ids : List NodeID} {id : NodeID} {p : π} :
    ∀ {a : List (Nat × π)}, id ∈ ids → arenaLookup a id.idx = some p →
      (id, p) ∈ (removeNodes a ids).2 := by
  induction ids with
  | nil => intro a h _; exact absurd h (List.not_mem_nil id)
  | cons hd tl ih =>
    intro a hmem hlook
    by_cases hid : id = hd
    · subst hid
      cases hrem : arenaRemove a id.idx with
      | none => rw [arenaRemove_eq_none hrem] at hlook; exact absurd hlook (by simp)
      | some pr =>
        obtain ⟨p', a'⟩ := pr
        have hspec := arenaRemove_spec hrem
        rw [hlook] at hspec
        have hp : p = p' := by simpa using hspec.1
        subst hp
        simp [removeNodes, hrem]
    · have hmem' : id ∈ tl := by
        rcases List.mem_cons.mp hmem with h | h
        · exact absurd h hid
        · exact h
      cases hrem : arenaRemove a hd.idx with
      | none => simpa [removeNodes, hrem] using ih hmem' hlook
      | some pr =>
        obtain ⟨p', a'⟩ := pr
        have hspec := arenaRemove_spec hrem
        have hidx : id.idx ≠ hd.idx := by
          intro hji
          apply hid
          cases id
          cases hd
          simpa using hji
        have : arenaLookup a' id.idx = some p := by
          rw [hspec.2.1 id.idx hidx]; exact hlook
        simp only [removeNodes, hrem]
        exact List.mem_cons_of_mem _ (ih hmem' this)

theorem insertAll_lookup_mono {ps : List (NodeID × π)} :
    ∀ {a final : List (Nat × π)} {j : Nat} {v : π},
      insertAll a ps = some final → arenaLookup a j = some v →
      arenaLookup final j = some v := by
  induction ps with
  | nil => intro a final j v h hl; rw [← Option.some.inj h]; exact hl
  | cons idp rest ih =>
    obtain ⟨id, p⟩ := idp
    intro a final j v h hl
    simp only [insertAll] at h
    cases hins : arenaInsertAt a id.idx p with
    | none => rw [hins] at h; exact absurd h (by simp)
    | some a' =>
      rw [hins] at h
      obtain ⟨-, ha'⟩ := arenaInsertAt_spec hins
      subst ha'
      exact ih h (arenaLookup_append_left hl _)

theorem insertAll_mem {ps : List (NodeID × π)} {id : NodeID} {p : π} :
    ∀ {a final : List (Nat × π)}, insertAll a ps = some final →
      (id, p) ∈ ps → arenaLookup final id.idx = some p := by
  induction ps with
  | nil => intro a final _ hmem; exact absurd hmem (List.not_mem_nil _)
  | cons idp rest ih =>
    obtain ⟨id', p'⟩ := idp
    intro a final h hmem
    simp only [insertAll] at h
    cases hins : arenaInsertAt a id'.idx p' with
    | none => rw [hins] at h; exact absurd h (by simp)
    | some a' =>
      rw [hins] at h
      obtain ⟨hnone, ha'⟩ := arenaInsertAt_spec hins
      rcases List.mem_cons.mp hmem with heq | hmem'
      · obtain ⟨h1, h2⟩ := Prod.mk.injEq .. ▸ heq
        subst h1; subst h2
        subst ha'
        exact insertAll_lookup_mono h (arenaLookup_append_self hnone p)
      · exact ih h hmem'

theorem tryPush_spec {st st' : FirewheelProcessor π κ}
    {m : ProcessorToContextMsg π κ} (h : tryPush st m = some st') :
    st' = { st with to_graph_tx := st.to_graph_tx ++ [m] } ∧
    st.to_graph_tx.length < st.to_graph_cap := by
  unfold tryPush at h
  split at h
  · exact ⟨(Option.some.inj h).symm, by assumption⟩
  · exact absurd h (by simp)

/-- Facts every message handler preserves: the stream info is immutable,
`running` is never set back to `true`, and an installed schedule never
disappears. -/
theorem handleMsg_invariants {st st' : FirewheelProcessor π κ}
    {m : ContextToProcessorMsg π} (h : handleMsg st m = some st') :
    st'.stream_info = st.stream_info ∧
    (st'.running = true → st.running = true) ∧
    (st.schedule_data.isSome = true → st'.schedule_data.isSome = true) := by
  cases m with
  | stop =>
    have hst := Option.some.inj h
    subst hst
    exact ⟨rfl, by simp, by simp⟩
  | newSchedule new =>
    simp only [handleMsg] at h
    by_cases hb : new.schedule.max_block_frames = st.stream_info.max_block_frames
    · rw [if_pos hb] at h
      cases hsd : st.schedule_data with
      | none =>
        simp only [hsd, Option.map_eq_map, Option.map_eq_some'] at h
        obtain ⟨nodes', -, hst⟩ := h
        subst hst
        exact ⟨rfl, by simp, by simp⟩
      | some old =>
        simp only [hsd, Option.bind_eq_bind, Option.bind_eq_some,
          Option.map_eq_map, Option.map_eq_some'] at h
        obtain ⟨st1, htp, nodes', -, hst⟩ := h
        obtain ⟨hst1, -⟩ := tryPush_spec htp
        subst hst1
        subst hst
        exact ⟨rfl, by simp, by simp⟩
    · rw [if_neg hb] at h
      exact absurd h (by simp)

theorem pollBatch_invariants {batch : List (ContextToProcessorMsg π)} :
    ∀ {st st' : FirewheelProcessor π κ}, pollBatch st batch = some st' →
      st'.stream_info = st.stream_info ∧
      (st'.running = true → st.running = true) ∧
      (st.schedule_data.isSome = true → st'.schedule_data.isSome = true) := by
  induction batch with
  | nil =>
    intro st st' h
    have hst := Option.some.inj h
    subst hst
    exact ⟨rfl, fun hr => hr, fun hs => hs⟩
  | cons m rest ih =>
    intro st st' h
    simp only [pollBatch, Option.bind_eq_bind, Option.bind_eq_some] at h
    obtain ⟨st1, hm, hrest⟩ := h
    obtain ⟨h1, h2, h3⟩ := handleMsg_invariants hm
    obtain ⟨g1, g2, g3⟩ := ih hrest
    exact ⟨g1.trans h1, fun hr => h2 (g2 hr), fun hs => g3 (h3 hs)⟩

theorem pollMessages_invariants {st st' : FirewheelProcessor π κ}
    (h : pollMessages st = some st') :
    st'.stream_info = st.stream_info ∧
    (st'.running = true → st.running = true) ∧
    (st.schedule_data.isSome = true → st'.schedule_data.isSome = true) := by
  unfold pollMessages at h
  cases hrx : st.from_graph_rx with
  | nil =>
    rw [hrx] at h
    have h' : some st = some st' := h
    have hst := Option.some.inj h'
    subst hst
    exact ⟨rfl, fun hr => hr, fun hs => hs⟩
  | cons batch rest =>
    rw [hrx] at h
    have h' : pollBatch { st with from_graph_rx := rest } batch = some st' := h
    obtain ⟨g1, g2, g3⟩ := pollBatch_invariants h'
    exact ⟨g1, g2, g3⟩

/-- Claim C4.  `poll_messages` on `NewSchedule(new)` with an old schedule
installed: every node in `new.nodes_to_remove` whose processor is present
is evicted from the arena and collected (after the swapped-in scratch
vector `new.removed_node_processors`) in the `removed_node_processors` of
the old `ScheduleHeapData`, which is pushed back as `ReturnSchedule`; the
new processors are then inserted at their dense indices and `new` (drained)
becomes the active schedule. -/
theorem poll_new_schedule_swaps_and_returns
    {st st' : FirewheelProcessor π κ} {new old : ScheduleHeapData π}
    (hold : st.schedule_data = some old)
    (hnd : (st.nodes.map Prod.fst).Nodup)
    (h : handleMsg st (.newSchedule new) = some st') :
    st'.to_graph_tx = st.to_graph_tx ++
      [ProcessorToContextMsg.returnSchedule
        { old with removed_node_processors :=
            new.removed_node_processors ++
              (removeNodes st.nodes new.nodes_to_remove).2 }] ∧
    (∀ id (p : π), id ∈ new.nodes_to_remove →
      arenaLookup st.nodes id.idx = some p →
      (id, p) ∈ (removeNodes st.nodes new.nodes_to_remove).2 ∧
      arenaLookup (removeNodes st.nodes new.nodes_to_remove).1 id.idx =
        none) ∧
    (∀ id (p : π), (id, p) ∈ new.new_node_processors →
      arenaLookup st'.nodes id.idx = some p) ∧
    st'.schedule_data = some
      { new with
        new_node_processors := []
        removed_node_processors := old.removed_node_processors } := by
  simp only [handleMsg] at h
  by_cases hb : new.schedule.max_block_frames = st.stream_info.max_block_frames
  · rw [if_pos hb] at h
    simp only [hold, Option.bind_eq_bind, Option.bind_eq_some,
      Option.map_eq_map, Option.map_eq_some'] at h
    obtain ⟨st1, htp, nodes', hins, hst⟩ := h
    obtain ⟨hst1, -⟩ := tryPush_spec htp
    subst hst1
    subst hst
    refine ⟨by simp, ?_, ?_, by simp⟩
    · intro id p hid hlook
      exact ⟨removeNodes_mem hid hlook, removeNodes_lookup_removed hnd hid⟩
    · intro id p hmem
      exact insertAll_mem hins hmem
  · rw [if_neg hb] at h
    exact absurd h (by simp)

/-- Concrete processor states for evaluating the message-handling claims:
two installed node processors, an installed schedule, room for one
outbound message. -/
def c4old : ScheduleHeapData Unit :=
  { schedule := { max_block_frames := 64 }
    new_node_processors := []
    nodes_to_remove := []
    removed_node_processors := [] }

def c4new : ScheduleHeapData Unit :=
  { schedule := { max_block_frames := 64 }
    new_node_processors := [({ idx := 3 }, ())]
    nodes_to_remove := [{ idx := 1 }]
    removed_node_processors := [] }

def c4st : FirewheelProcessor Unit Unit :=
  { nodes := [(1, ()), (2, ())]
    schedule_data := some c4old
    user_cx := some ()
    from_graph_rx := []
    to_graph_tx := []
    to_graph_cap := 1
    running := true
    stream_info :=
      { sample_rate := 48000, max_block_frames := 64,
        num_in_channels := 2, num_out_channels := 2 } }

/-- The state `handleMsg` produces from `c4st` on `NewSchedule c4new`. -/
def c4st' : FirewheelProcessor Unit Unit :=
  { nodes := [(2, ()), (3, ())]
    schedule_data := some
      { schedule := { max_block_frames := 64 }
        new_node_processors := []
        nodes_to_remove := [{ idx := 1 }]
        removed_node_processors := [] }
    user_cx := some ()
    from_graph_rx := []
    to_graph_tx := [ProcessorToContextMsg.returnSchedule
      { schedule := { max_block_frames := 64 }
        new_node_processors := []
        nodes_to_remove := []
        removed_node_processors := [({ idx := 1 }, ())] }]
    to_graph_cap := 1
    running := true
    stream_info :=
      { sample_rate := 48000, max_block_frames := 64,
        num_in_channels := 2, num_out_channels := 2 } }

/-- Claim C4, witness. -/
theorem poll_new_schedule_swaps_and_returns_witness :
    c4st'.to_graph_tx = c4st.to_graph_tx ++
      [ProcessorToContextMsg.returnSchedule
        { c4old with removed_node_processors :=
            c4new.removed_node_processors ++
              (removeNodes c4st.nodes c4new.nodes_to_remove).2 }] ∧
    (({ idx := 1 } : NodeID), ()) ∈
      (removeNodes c4st.nodes c4new.nodes_to_remove).2 ∧
    arenaLookup (removeNodes c4st.nodes c4new.nodes_to_remove).1 1 = none ∧
    arenaLookup c4st'.nodes 3 = some () ∧
    c4st'.schedule_data = some
      { c4new with
        new_node_processors := []
        removed_node_processors := c4old.removed_node_processors } := by
  have h := @poll_new_schedule_swaps_and_returns Unit Unit c4st c4st' c4new
    c4old (by decide) (by decide) (by decide)
  refine ⟨h.1, ?_, ?_, ?_, h.2.2.2⟩
  · exact (h.2.1 { idx := 1 } () (by decide) (by decide)).1
  · exact (h.2.1 { idx := 1 } () (by decide) (by decide)).2
  · exact h.2.2.1 { idx := 3 } () (by decide)

/-- Claim C5.  The audio thread's two outbound-push sites differ in failure
policy: `poll_messages` pushing `ReturnSchedule` onto a full outbound queue
panics (the model returns `none`), while the processor `Drop` pushing
`Dropped` onto a full queue merely discards the error and completes, with
the outbound queue unchanged.  (Both sites go through the non-blocking
`tryPush`; neither ever blocks.) -/
theorem outbound_push_policies :
    (∀ (st : FirewheelProcessor π κ) (old new : ScheduleHeapData π),
      st.schedule_data = some old →
      new.schedule.max_block_frames = st.stream_info.max_block_frames →
      ¬ st.to_graph_tx.length < st.to_graph_cap →
      handleMsg st (.newSchedule new) = none) ∧
    (∀ st : FirewheelProcessor π κ,
      ¬ st.to_graph_tx.length < st.to_graph_cap →
      FirewheelProcessor.drop st =
        { st with nodes := [], schedule_data := none, user_cx := none }) := by
  constructor
  · intro st old new hold hmbf hfull
    simp only [handleMsg, hmbf, if_true, eq_self_iff_true, hold, tryPush]
    simp [hfull]
  · intro st hfull
    simp only [FirewheelProcessor.drop, tryPush]
    simp [hfull]

/-- Concrete processor state with a full (capacity 0) outbound queue. -/
def c5st : FirewheelProcessor Unit Unit :=
  { nodes := [(1, ())]
    schedule_data := some c4old
    user_cx := some ()
    from_graph_rx := []
    to_graph_tx := []
    to_graph_cap := 0
    running := true
    stream_info :=
      { sample_rate := 48000, max_block_frames := 64,
        num_in_channels := 2, num_out_channels := 2 } }

/-- Claim C5, witness. -/
theorem outbound_push_policies_witness :
    handleMsg c5st (.newSchedule c4new) = none ∧
    FirewheelProcessor.drop c5st =
      { c5st with nodes := [], schedule_data := none, user_cx := none } :=
  ⟨(@outbound_push_policies Unit Unit).1 c5st c4old c4new (by decide)
      (by decide) (by decide),
    (@outbound_push_policies Unit Unit).2 c5st (by decide)⟩

/-! ## The audio callback (`process_interleaved`, lines 54-139)

The `Schedule`'s buffer staging (`prepare_graph_inputs`, `process`,
`read_graph_outputs`, and the `firewheel_core` interleave/deinterleave
helpers) lives outside the verified sources.  Modelled from the spec: per
sub-block the schedule (i) deinterleaves the input slice at offset
`frames_processed * num_in_channels`, (ii) is invoked on the block, and
(iii) interleaves its graph-output staging buffers into the output slice at
offset `frames_processed * num_out_channels`.  The model records these
three observable actions as events and abstracts the samples the schedule
produces for a sub-block as a parameter `blockOut frames_processed
block_frames` (a list truncated/padded to the exact slice length, as
`interleave` always fills the whole slice). -/

/-- Observable actions of one loop iteration of `process_interleaved`. -/
inductive PEvent : Type
  | deint (fp bf : Nat)
  | invoke (bf : Nat)
  | interleave (fp bf : Nat)
deriving DecidableEq, Repr

/-- Pad or truncate a list to exactly `n` samples. -/
def padTo (n : Nat) (l : List ℚ) : List ℚ := (l ++ List.replicate n 0).take n

/-- Overwrite `l[off .. off + v.length)` with `v` (Rust slice assignment;
all uses are in bounds). -/
def writeSlice (l : List ℚ) (off : Nat) (v : List ℚ) : List ℚ :=
  l.take off ++ v ++ l.drop (off + v.length)

/-- Model of `output[off..].fill(0.0)`. -/
def zeroFrom (l : List ℚ) (off : Nat) : List ℚ :=
  l.take off ++ List.replicate (l.length - off) 0

/-- Model of `FirewheelProcessorStatus` (`processor.rs` lines 9-14). -/
inductive FirewheelProcessorStatus : Type
  | ok
  | dropProcessor
deriving DecidableEq, Repr

/-- The sub-block loop of `process_interleaved` (lines 79-132), fuelled
(the Rust loop advances by `block_frames ≥ 1` per iteration whenever
`max_block_frames ≥ 1`, so `fuel = frames` always suffices).  Inside
`process_block` (lines 182-220) messages are drained again and the
schedule is invoked only if still running; `none` models the
`schedule_data` unwraps panicking (they cannot, as polls preserve an
installed schedule) or a panic inside the drain. -/
def processLoop (blockOut : Nat → Nat → List ℚ)
    (num_out_channels frames : Nat) :
    Nat → FirewheelProcessor π κ → Nat → List ℚ → List PEvent →
    Option (FirewheelProcessor π κ × List ℚ × List PEvent)
  | 0, st, fp, out, ev =>
    if fp < frames then none else some (st, out, ev)
  | fuel + 1, st, fp, out, ev =>
    if fp < frames then
      if st.schedule_data.isSome = false then none
      else
        let bf := min (frames - fp) st.stream_info.max_block_frames
        let ev1 := ev ++ [PEvent.deint fp bf]
        (pollMessages st).bind fun st1 =>
          let ev2 := if st1.running = true ∧ st1.schedule_data.isSome = true
            then ev1 ++ [PEvent.invoke bf] else ev1
          if st1.schedule_data.isSome = false then none
          else
            let out1 := writeSlice out (fp * num_out_channels)
              (padTo (bf * num_out_channels) (blockOut fp bf))
            let ev3 := ev2 ++ [PEvent.interleave fp bf]
            if st1.running = true then
              processLoop blockOut num_out_channels frames fuel st1 (fp + bf)
                out1 ev3
            else
              some (st1, zeroFrom out1 (fp * num_out_channels), ev3)
    else some (st, out, ev)

/-- Model of `process_interleaved` (lines 54-139): drain messages; if stopped, zero
the output and ask to be dropped; with no schedule or zero frames, zero the
output; otherwise check the interleaved buffer lengths (`assert_eq!`,
lines 76-77) and run the sub-block loop. -/
def process_interleaved (blockOut : Nat → Nat → List ℚ)
    (st : FirewheelProcessor π κ) (input output : List ℚ)
    (num_in_channels num_out_channels frames : Nat) :
    Option (FirewheelProcessor π κ × List ℚ ×
      FirewheelProcessorStatus × List PEvent) :=
  (pollMessages st).bind fun st1 =>
    if st1.running = false then
      some (st1, List.replicate output.length 0,
        FirewheelProcessorStatus.dropProcessor, [])
    else if st1.schedule_data.isSome = false ∨ frames = 0 then
      some (st1, List.replicate output.length 0,
        FirewheelProcessorStatus.ok, [])
    else if input.length = frames * num_in_channels ∧
        output.length = frames * num_out_channels then
      (processLoop blockOut num_out_channels frames frames st1 0 output
        []).map fun r =>
        (r.1, r.2.1,
          if r.1.running = true then FirewheelProcessorStatus.ok
          else FirewheelProcessorStatus.dropProcessor,
          r.2.2)
    else none

/-- The canonical sub-block splitting: offsets and sizes
`min (frames remaining) max_block_frames`, advanced in order. -/
def subBlocksAux (mbf frames : Nat) : Nat → Nat → List (Nat × Nat)
  | 0, _ => []
  | fuel + 1, fp =>
    if fp < frames then
      (fp, min (frames - fp) mbf) ::
        subBlocksAux mbf frames fuel (fp + min (frames - fp) mbf)
    else []

def subBlocks (mbf frames : Nat) : List (Nat × Nat) :=
  subBlocksAux mbf frames frames 0

/-- Claim C6.  When `running` is false after the initial message drain,
`process_interleaved` zero-fills the whole output, returns `DropProcessor`,
and does nothing else: no deinterleave/schedule-invocation/interleave
events, and the state is exactly the drained state (no node processor
touched). -/
theorem process_interleaved_not_running (blockOut : Nat → Nat → List ℚ)
    (st st₁ : FirewheelProcessor π κ) (input output : List ℚ)
    (num_in_channels num_out_channels frames : Nat)
    (hpm : pollMessages st = some st₁) (hrun : st₁.running = false) :
    process_interleaved blockOut st input output num_in_channels
        num_out_channels frames =
      some (st₁, List.replicate output.length 0,
        FirewheelProcessorStatus.dropProcessor, []) := by
  unfold process_interleaved
  rw [hpm]
  simp [hrun]

/-- Concrete stopped-processor run for the callback claims. -/
def c6st : FirewheelProcessor Unit Unit :=
  { nodes := [(1, ())]
    schedule_data := some c4old
    user_cx := some ()
    from_graph_rx := [[ContextToProcessorMsg.stop]]
    to_graph_tx := []
    to_graph_cap := 1
    running := true
    stream_info :=
      { sample_rate := 48000, max_block_frames := 64,
        num_in_channels := 0, num_out_channels := 1 } }

/-- Claim C6, witness. -/
theorem process_interleaved_not_running_witness :
    process_interleaved (fun _ _ => []) c6st [] [7, 7] 0 1 2 =
      some ({ c6st with from_graph_rx := [], running := false },
        List.replicate 2 0, FirewheelProcessorStatus.dropProcessor, []) :=
  process_interleaved_not_running (fun _ _ => []) c6st
    { c6st with from_graph_rx := [], running := false } [] [7, 7] 0 1 2
    (by decide) (by decide)

/-- Claim C7.  When the processor is running but no schedule is installed
or `frames = 0`, `process_interleaved` zero-fills the whole output and
returns `Ok`, without invoking the schedule. -/
theorem process_interleaved_idle (blockOut : Nat → Nat → List ℚ)
    (st st₁ : FirewheelProcessor π κ) (input output : List ℚ)
    (num_in_channels num_out_channels frames : Nat)
    (hpm : pollMessages st = some st₁) (hrun : st₁.running = true)
    (hidle : st₁.schedule_data.isSome = false ∨ frames = 0) :
    process_interleaved blockOut st input output num_in_channels
        num_out_channels frames =
      some (st₁, List.replicate output.length 0,
        FirewheelProcessorStatus.ok, []) := by
  unfold process_interleaved
  rw [hpm]
  rcases hidle with h1 | h1
  · simp [hrun, h1]
  · simp [hrun, h1]

/-- Concrete running processor with no schedule installed. -/
def c7st : FirewheelProcessor Unit Unit :=
  { nodes := []
    schedule_data := none
    user_cx := some ()
    from_graph_rx := []
    to_graph_tx := []
    to_graph_cap := 1
    running := true
    stream_info :=
      { sample_rate := 48000, max_block_frames := 64,
        num_in_channels := 0, num_out_channels := 1 } }

/-- Claim C7, witness. -/
theorem process_interleaved_idle_witness :
    process_interleaved (fun _ _ => []) c7st [] [7, 7, 7] 0 1 3 =
      some (c7st, List.replicate 3 0, FirewheelProcessorStatus.ok, []) :=
  process_interleaved_idle (fun _ _ => []) c7st c7st [] [7, 7, 7] 0 1 3
    (by decide) (by decide) (by decide)

/-- Claim C8.  `running` latches: it is `true` at construction, message
handling never sets it back to `true` (`Stop` is the only assignment after
construction, to `false`), and once it is `false` every
`process_interleaved` call that completes zero-fills its output, returns
`DropProcessor`, and leaves `running` false. -/
theorem running_latches (blockOut : Nat → Nat → List ℚ) :
    (∀ (rx : List (List (ContextToProcessorMsg π))) (cap nc : Nat)
      (si : StreamInfo) (cx : κ),
      (FirewheelProcessor.new rx cap nc si cx).running = true) ∧
    (∀ (st st' : FirewheelProcessor π κ) (m : ContextToProcessorMsg π),
      handleMsg st m = some st' → st.running = false →
      st'.running = false) ∧
    (∀ (st : FirewheelProcessor π κ) (input output : List ℚ)
      (num_in_channels num_out_channels frames : Nat)
      (r : FirewheelProcessor π κ × List ℚ ×
        FirewheelProcessorStatus × List PEvent),
      st.running = false →
      process_interleaved blockOut st input output num_in_channels
        num_out_channels frames = some r →
      r.2.2.1 = FirewheelProcessorStatus.dropProcessor ∧
      r.2.1 = List.replicate output.length 0 ∧ r.1.running = false) := by
  refine ⟨fun _ _ _ _ _ => rfl, ?_, ?_⟩
  · intro st st' m hm hrun
    obtain ⟨-, h2, -⟩ := handleMsg_invariants hm
    cases hr' : st'.running with
    | false => rfl
    | true => rw [h2 hr'] at hrun; exact absurd hrun (by simp)
  · intro st input output nin nout frames r hrun h
    unfold process_interleaved at h
    rw [Option.bind_eq_some] at h
    obtain ⟨st₁, hpm, h⟩ := h
    have hrun₁ : st₁.running = false := by
      obtain ⟨-, h2, -⟩ := pollMessages_invariants hpm
      cases hr' : st₁.running with
      | false => rfl
      | true => rw [h2 hr'] at hrun; exact absurd hrun (by simp)
    rw [if_pos hrun₁] at h
    have hr := Option.some.inj h
    subst hr
    exact ⟨rfl, rfl, hrun₁⟩

/-- Concrete already-stopped processor and the result of one callback on
it. -/
def c8st : FirewheelProcessor Unit Unit :=
  { c6st with from_graph_rx := [], running := false }

def c8r : FirewheelProcessor Unit Unit × List ℚ ×
    FirewheelProcessorStatus × List PEvent :=
  (c8st, List.replicate 1 0, FirewheelProcessorStatus.dropProcessor, [])

/-- Claim C8, witness. -/
theorem running_latches_witness :
    (@FirewheelProcessor.new Unit Unit [] 4 4
        { sample_rate := 48000, max_block_frames := 64,
          num_in_channels := 0, num_out_channels := 1 } ()).running = true ∧
    ({ c8st with running := false } :
      FirewheelProcessor Unit Unit).running = false ∧
    (c8r.2.2.1 = FirewheelProcessorStatus.dropProcessor ∧
      c8r.2.1 = List.replicate [(5 : ℚ)].length 0 ∧
      c8r.1.running = false) := by
  refine ⟨(@running_latches Unit Unit fun _ _ => []).1 [] 4 4
      { sample_rate := 48000, max_block_frames := 64,
        num_in_channels := 0, num_out_channels := 1 } (), ?_, ?_⟩
  · exact (@running_latches Unit Unit fun _ _ => []).2.1 c8st
      { c8st with running := false } ContextToProcessorMsg.stop (by decide)
      (by decide)
  · exact (@running_latches Unit Unit fun _ _ => []).2.2 c8st [] [5] 0 1 1
      c8r (by decide) (by decide)

/-! ### Buffer-slice lemmas -/

theorem padTo_length (n : Nat) (l : List ℚ) : (padTo n l).length = n := by
  simp [padTo]

theorem writeSlice_length {l v : List ℚ} {off : Nat}
    (h : off + v.length ≤ l.length) :
    (writeSlice l off v).length = l.length := by
  simp [writeSlice]
  omega

theorem writeSlice_take_off {l v : List ℚ} {off : Nat} (h : off ≤ l.length) :
    (writeSlice l off v).take off = l.take off := by
  have hlen : (l.take off).length = off := by simp; omega
  rw [writeSlice, List.append_assoc]
  exact List.take_left' hlen

theorem writeSlice_take_full {l v : List ℚ} {off : Nat}
    (h : off + v.length ≤ l.length) :
    (writeSlice l off v).take (off + v.length) = l.take off ++ v := by
  have hlen : (l.take off ++ v).length = off + v.length := by
    simp
    omega
  rw [writeSlice, List.append_assoc, ← List.append_assoc]
  exact List.take_left' hlen

/-- Running the sub-block loop with no inbound messages: the state is
unchanged, the output from `fp` on is exactly the concatenation of the
per-sub-block interleaved chunks, and each sub-block contributes its
deinterleave, schedule invocation and interleave in order. -/
theorem processLoop_no_messages {blockOut : Nat → Nat → List ℚ}
    {num_out_channels frames : Nat} :
    ∀ (fuel : Nat) (st : FirewheelProcessor π κ) (fp : Nat) (out : List ℚ)
      (ev : List PEvent),
      st.from_graph_rx = [] → st.running = true →
      st.schedule_data.isSome = true →
      1 ≤ st.stream_info.max_block_frames →
      frames - fp ≤ fuel → fp ≤ frames →
      out.length = frames * num_out_channels →
      processLoop blockOut num_out_channels frames fuel st fp out ev =
        some (st,
          out.take (fp * num_out_channels) ++
            ((subBlocksAux st.stream_info.max_block_frames frames fuel
              fp).map fun b =>
                padTo (b.2 * num_out_channels) (blockOut b.1 b.2)).flatten,
          ev ++ (subBlocksAux st.stream_info.max_block_frames frames fuel
            fp).flatMap fun b =>
              [PEvent.deint b.1 b.2, PEvent.invoke b.2,
                PEvent.interleave b.1 b.2]) := by
  intro fuel
  induction fuel with
  | zero =>
    intro st fp out ev hrx hrun hsch hmbf hfuel hfp hout
    have hfpe : fp = frames := by omega
    subst hfpe
    simp only [processLoop, subBlocksAux]
    rw [if_neg (by omega)]
    rw [← hout]
    simp
  | succ fuel ih =>
    intro st fp out ev hrx hrun hsch hmbf hfuel hfp hout
    by_cases hlt : fp < frames
    · have hpm : pollMessages st = some st := by
        unfold pollMessages
        rw [hrx]
      have hbf1 : 1 ≤ min (frames - fp) st.stream_info.max_block_frames :=
        le_min (by omega) hmbf
      have hbfle : min (frames - fp) st.stream_info.max_block_frames ≤
          frames - fp := min_le_left _ _
      have hfpbf : fp + min (frames - fp) st.stream_info.max_block_frames ≤
          frames := by omega
      have hoff : fp * num_out_channels +
          (padTo (min (frames - fp) st.stream_info.max_block_frames *
            num_out_channels)
            (blockOut fp
              (min (frames - fp) st.stream_info.max_block_frames))).length ≤
          out.length := by
        rw [padTo_length, hout, ← Nat.add_mul]
        exact Nat.mul_le_mul_right _ hfpbf
      simp only [processLoop, if_pos hlt, hsch, Bool.true_eq_false,
        if_false, hpm, Option.some_bind, hrun, and_self, if_true, and_true]
      rw [ih st
          (fp + min (frames - fp) st.stream_info.max_block_frames) _ _
          hrx hrun hsch hmbf (by omega) hfpbf
          ((writeSlice_length hoff).trans hout)]
      have hsb : subBlocksAux st.stream_info.max_block_frames frames
          (fuel + 1) fp =
          (fp, min (frames - fp) st.stream_info.max_block_frames) ::
            subBlocksAux st.stream_info.max_block_frames frames fuel
              (fp + min (frames - fp) st.stream_info.max_block_frames) := by
        simp [subBlocksAux, if_pos hlt]
      rw [hsb]
      refine congrArg some ?_
      refine congrArg (Prod.mk st) ?_
      have htake : (writeSlice out (fp * num_out_channels)
          (padTo (min (frames - fp) st.stream_info.max_block_frames *
            num_out_channels)
            (blockOut fp
              (min (frames - fp) st.stream_info.max_block_frames)))).take
          ((fp + min (frames - fp) st.stream_info.max_block_frames) *
            num_out_channels) =
          out.take (fp * num_out_channels) ++
            padTo (min (frames - fp) st.stream_info.max_block_frames *
              num_out_channels)
              (blockOut fp
                (min (frames - fp) st.stream_info.max_block_frames)) := by
        rw [Nat.add_mul]
        have := writeSlice_take_full hoff
        rw [padTo_length] at this
        exact this
      refine congrArg₂ Prod.mk ?_ ?_
      · rw [htake]
        simp [List.append_assoc]
      · simp [List.append_assoc]
    · have hfpe : fp = frames := by omega
      subst hfpe
      simp only [processLoop, subBlocksAux]
      rw [if_neg (by omega), if_neg (by omega)]
      rw [← hout]
      simp

/-- Claim C3.  With a schedule installed, `frames > 0` and no inbound
messages, `process_interleaved` processes the requested frames as the
consecutive in-order sub-blocks `subBlocks max_block_frames frames` (each
of size `min (frames remaining) max_block_frames`): per sub-block it emits
one deinterleave of the input slice at the sub-block offset, one schedule
invocation, and one interleave of the output slice at offset
`frames_processed * num_out_channels`, and the produced output is the
concatenation of the per-sub-block chunks. -/
theorem process_interleaved_block_splitting (blockOut : Nat → Nat → List ℚ)
    (st : FirewheelProcessor π κ) (input output : List ℚ)
    (num_in_channels num_out_channels frames : Nat)
    (hrx : st.from_graph_rx = []) (hrun : st.running = true)
    (hsch : st.schedule_data.isSome = true)
    (hmbf : 1 ≤ st.stream_info.max_block_frames) (hfr : frames ≠ 0)
    (hin : input.length = frames * num_in_channels)
    (hout : output.length = frames * num_out_channels) :
    process_interleaved blockOut st input output num_in_channels
        num_out_channels frames =
      some (st,
        ((subBlocks st.stream_info.max_block_frames frames).map
          fun b => padTo (b.2 * num_out_channels) (blockOut b.1 b.2)).flatten,
        FirewheelProcessorStatus.ok,
        (subBlocks st.stream_info.max_block_frames frames).flatMap
          fun b => [PEvent.deint b.1 b.2, PEvent.invoke b.2,
            PEvent.interleave b.1 b.2]) := by
  have hpm : pollMessages st = some st := by
    unfold pollMessages
    rw [hrx]
  unfold process_interleaved
  rw [hpm]
  simp only [Option.some_bind]
  rw [if_neg (by simp [hrun]), if_neg (by simp [hsch, hfr]),
    if_pos ⟨hin, hout⟩]
  rw [processLoop_no_messages frames st 0 output [] hrx hrun hsch hmbf
    (by omega) (by omega) hout]
  simp [subBlocks, hrun]

/-- Concrete running processor with an installed schedule compiled for
`max_block_frames = 64`. -/
def c3st : FirewheelProcessor Unit Unit :=
  { nodes := []
    schedule_data := some c4old
    user_cx := some ()
    from_graph_rx := []
    to_graph_tx := []
    to_graph_cap := 1
    running := true
    stream_info :=
      { sample_rate := 48000, max_block_frames := 64,
        num_in_channels := 0, num_out_channels := 1 } }

set_option maxRecDepth 8000 in
/-- Claim C3, witness: `max_block_frames = 64`, `frames = 200` yields
exactly 4 schedule invocations with block sizes 64, 64, 64, 8 at offsets
0, 64, 128, 192. -/
theorem process_interleaved_block_splitting_witness :
    process_interleaved (fun _ _ => List.replicate 64 (1 : ℚ)) c3st []
        (List.replicate 200 0) 0 1 200 =
      some (c3st, List.replicate 200 1, FirewheelProcessorStatus.ok,
        [PEvent.deint 0 64, PEvent.invoke 64, PEvent.interleave 0 64,
          PEvent.deint 64 64, PEvent.invoke 64, PEvent.interleave 64 64,
          PEvent.deint 128 64, PEvent.invoke 64, PEvent.interleave 128 64,
          PEvent.deint 192 8, PEvent.invoke 8,
          PEvent.interleave 192 8]) := by
  rw [process_interleaved_block_splitting (fun _ _ => List.replicate 64 1)
    c3st [] (List.replicate 200 0) 0 1 200 rfl rfl rfl (by decide)
    (by decide) (by decide) (by simp)]
  decide

/-- If the sub-block loop observes `running = false` (a `Stop` drained at a
sub-block boundary), the already-completed sub-blocks (all of size
`max_block_frames`, laid out consecutively from `fp`) are left intact in
the output and everything from the aborted sub-block on is zero-filled. -/
theorem processLoop_stop {blockOut : Nat → Nat → List ℚ}
    {num_out_channels frames : Nat} :
    ∀ (fuel : Nat) (st : FirewheelProcessor π κ) (fp : Nat) (out : List ℚ)
      (ev : List PEvent)
      (r : FirewheelProcessor π κ × List ℚ × List PEvent),
      st.running = true → st.schedule_data.isSome = true →
      1 ≤ st.stream_info.max_block_frames →
      frames - fp ≤ fuel → fp ≤ frames →
      out.length = frames * num_out_channels →
      processLoop blockOut num_out_channels frames fuel st fp out ev =
        some r →
      r.1.running = false →
      ∃ j : Nat,
        fp + j * st.stream_info.max_block_frames < frames ∧
        r.2.1 = out.take (fp * num_out_channels) ++
          ((List.range j).map fun i =>
            padTo (st.stream_info.max_block_frames * num_out_channels)
              (blockOut (fp + i * st.stream_info.max_block_frames)
                st.stream_info.max_block_frames)).flatten ++
          List.replicate
            ((frames - (fp + j * st.stream_info.max_block_frames)) *
              num_out_channels) 0 := by
  intro fuel
  induction fuel with
  | zero =>
    intro st fp out ev r hrun hsch hmbf hfuel hfp hout hL hstop
    simp only [processLoop] at hL
    rw [if_neg (by omega)] at hL
    have hr := Option.some.inj hL
    subst hr
    rw [hrun] at hstop
    exact absurd hstop (by simp)
  | succ fuel ih =>
    intro st fp out ev r hrun hsch hmbf hfuel hfp hout hL hstop
    by_cases hlt : fp < frames
    · simp only [processLoop, if_pos hlt, hsch, Bool.true_eq_false,
        if_false] at hL
      rw [Option.bind_eq_some] at hL
      obtain ⟨st1, hpm, hL⟩ := hL
      obtain ⟨hsi, hrm, hsm⟩ := pollMessages_invariants hpm
      have hsch1 : st1.schedule_data.isSome = true := hsm hsch
      have hbf1 : 1 ≤ min (frames - fp) st.stream_info.max_block_frames :=
        le_min (by omega) hmbf
      have hbfle : min (frames - fp) st.stream_info.max_block_frames ≤
          frames - fp := min_le_left _ _
      have hfpbf : fp + min (frames - fp) st.stream_info.max_block_frames ≤
          frames := by omega
      have hoff : fp * num_out_channels +
          (padTo (min (frames - fp) st.stream_info.max_block_frames *
            num_out_channels)
            (blockOut fp
              (min (frames - fp) st.stream_info.max_block_frames))).length ≤
          out.length := by
        rw [padTo_length, hout, ← Nat.add_mul]
        exact Nat.mul_le_mul_right _ hfpbf
      cases hr1 : st1.running with
      | true =>
        simp only [hr1, hsch1, Bool.true_eq_false, if_false, and_self,
          if_true] at hL
        have hmbf1 : 1 ≤ st1.stream_info.max_block_frames := by
          rw [hsi]
          exact hmbf
        obtain ⟨j', hj'lt, hj'eq⟩ :=
          ih st1 (fp + min (frames - fp) st.stream_info.max_block_frames)
            _ _ r hr1 hsch1 hmbf1 (by omega) hfpbf
            ((writeSlice_length hoff).trans hout) hL hstop
        rw [hsi] at hj'lt hj'eq
        have hfpbflt : fp + min (frames - fp)
            st.stream_info.max_block_frames < frames :=
          lt_of_le_of_lt (Nat.le_add_right _ _) hj'lt
        have hbfm : min (frames - fp) st.stream_info.max_block_frames =
            st.stream_info.max_block_frames := by
          rcases le_total (frames - fp) st.stream_info.max_block_frames
            with hc | hc
          · exfalso
            rw [min_eq_left hc] at hfpbflt
            omega
          · exact min_eq_right hc
        rw [hbfm] at hj'lt hj'eq hoff
        refine ⟨j' + 1, ?_, ?_⟩
        · rw [Nat.succ_mul]
          have harith : fp + (j' * st.stream_info.max_block_frames +
              st.stream_info.max_block_frames) =
              fp + st.stream_info.max_block_frames +
                j' * st.stream_info.max_block_frames := by ring
          rw [harith]
          exact hj'lt
        · have htake := writeSlice_take_full hoff
          rw [padTo_length] at htake
          rw [← Nat.add_mul] at htake
          rw [htake] at hj'eq
          rw [hj'eq]
          have harith : fp + (j' + 1) * st.stream_info.max_block_frames =
              fp + st.stream_info.max_block_frames +
                j' * st.stream_info.max_block_frames := by ring
          rw [List.range_succ_eq_map, List.map_cons, List.flatten_cons,
            List.map_map]
          have hfun : ((fun i =>
              padTo (st.stream_info.max_block_frames * num_out_channels)
                (blockOut (fp + i * st.stream_info.max_block_frames)
                  st.stream_info.max_block_frames)) ∘ Nat.succ) =
              fun i =>
                padTo (st.stream_info.max_block_frames * num_out_channels)
                  (blockOut (fp + st.stream_info.max_block_frames +
                    i * st.stream_info.max_block_frames)
                    st.stream_info.max_block_frames) := by
            funext i
            have : fp + Nat.succ i * st.stream_info.max_block_frames =
                fp + st.stream_info.max_block_frames +
                  i * st.stream_info.max_block_frames := by
              rw [Nat.succ_mul]
              ring
            simp [Function.comp, this]
          rw [hfun, harith]
          simp [List.append_assoc, Nat.zero_mul]
      | false =>
        simp only [hr1, hsch1, Bool.true_eq_false, Bool.false_eq_true,
          false_and, if_false] at hL
        have hr := Option.some.inj hL
        subst hr
        refine ⟨0, by simpa using hlt, ?_⟩
        have htoff : fp * num_out_channels ≤ out.length := by
          rw [hout]
          exact Nat.mul_le_mul_right _ hfp
        have hlen1 := writeSlice_length hoff
        simp only [zeroFrom]
        rw [writeSlice_take_off htoff, hlen1, hout]
        have harith : frames * num_out_channels - fp * num_out_channels =
            (frames - (fp + 0 * st.stream_info.max_block_frames)) *
              num_out_channels := by
          rw [Nat.zero_mul, Nat.add_zero, Nat.sub_mul]
        rw [harith]
        simp
    · simp only [processLoop] at hL
      rw [if_neg hlt] at hL
      have hr := Option.some.inj hL
      subst hr
      rw [hrun] at hstop
      exact absurd hstop (by simp)

/-- Claim C2.  If `running` goes false mid-loop (after the initial drain
left the processor running with a schedule and `frames > 0`), the call
returns `DropProcessor`, the output samples already produced by the `j`
completed sub-blocks are left intact, and the rest of the output (from the
aborted sub-block on) is zero-filled. -/
theorem process_interleaved_stop_mid_call
    {blockOut : Nat → Nat → List ℚ} {st st₁ : FirewheelProcessor π κ}
    {input output : List ℚ} {num_in_channels num_out_channels frames : Nat}
    {r : FirewheelProcessor π κ × List ℚ ×
      FirewheelProcessorStatus × List PEvent}
    (hpm : pollMessages st = some st₁) (hrun : st₁.running = true)
    (hsch : st₁.schedule_data.isSome = true)
    (hmbf : 1 ≤ st₁.stream_info.max_block_frames) (hfr : frames ≠ 0)
    (hin : input.length = frames * num_in_channels)
    (hout : output.length = frames * num_out_channels)
    (h : process_interleaved blockOut st input output num_in_channels
      num_out_channels frames = some r)
    (hstop : r.1.running = false) :
    r.2.2.1 = FirewheelProcessorStatus.dropProcessor ∧
    ∃ j : Nat,
      j * st₁.stream_info.max_block_frames < frames ∧
      r.2.1 = ((List.range j).map fun i =>
          padTo (st₁.stream_info.max_block_frames * num_out_channels)
            (blockOut (i * st₁.stream_info.max_block_frames)
              st₁.stream_info.max_block_frames)).flatten ++
        List.replicate
          ((frames - j * st₁.stream_info.max_block_frames) *
            num_out_channels) 0 := by
  unfold process_interleaved at h
  rw [hpm] at h
  simp only [Option.some_bind] at h
  rw [if_neg (by simp [hrun]), if_neg (by simp [hsch, hfr]),
    if_pos ⟨hin, hout⟩] at h
  rw [Option.map_eq_some'] at h
  obtain ⟨r0, hL, hr⟩ := h
  subst hr
  have hstop0 : r0.1.running = false := hstop
  obtain ⟨j, hjlt, hjeq⟩ := processLoop_stop frames st₁ 0 output [] r0 hrun
    hsch hmbf (by omega) (by omega) hout hL hstop0
  refine ⟨by simp [hstop0], j, by simpa using hjlt, ?_⟩
  rw [hjeq]
  simp

/-- Concrete run in which a `Stop` arrives at the second sub-block
boundary: `max_block_frames = 1`, `frames = 3`; the first sub-block
completes (output `7`), the remaining two frames are zero-filled. -/
def c2old : ScheduleHeapData Unit :=
  { schedule := { max_block_frames := 1 }
    new_node_processors := []
    nodes_to_remove := []
    removed_node_processors := [] }

def c2st : FirewheelProcessor Unit Unit :=
  { nodes := []
    schedule_data := some c2old
    user_cx := some ()
    from_graph_rx := [[], [], [ContextToProcessorMsg.stop]]
    to_graph_tx := []
    to_graph_cap := 1
    running := true
    stream_info :=
      { sample_rate := 48000, max_block_frames := 1,
        num_in_channels := 0, num_out_channels := 1 } }

/-- State `c2st` after the initial message drain (an empty batch). -/
def c2st₁ : FirewheelProcessor Unit Unit :=
  { c2st with from_graph_rx := [[], [ContextToProcessorMsg.stop]] }

/-- The result of the stopped call on `c2st`. -/
def c2r : FirewheelProcessor Unit Unit × List ℚ ×
    FirewheelProcessorStatus × List PEvent :=
  ({ c2st with from_graph_rx := [], running := false }, [7, 0, 0],
    FirewheelProcessorStatus.dropProcessor,
    [PEvent.deint 0 1, PEvent.invoke 1, PEvent.interleave 0 1,
      PEvent.deint 1 1, PEvent.interleave 1 1])

/-- Claim C2, witness. -/
theorem process_interleaved_stop_mid_call_witness :
    process_interleaved (fun _ _ => [(7 : ℚ)]) c2st [] [9, 9, 9] 0 1 3 =
      some c2r ∧
    c2r.2.2.1 = FirewheelProcessorStatus.dropProcessor ∧
    ∃ j : Nat,
      j * c2st₁.stream_info.max_block_frames < 3 ∧
      c2r.2.1 = ((List.range j).map fun i =>
          padTo (c2st₁.stream_info.max_block_frames * 1)
            ((fun _ _ => [(7 : ℚ)])
              (i * c2st₁.stream_info.max_block_frames)
              c2st₁.stream_info.max_block_frames)).flatten ++
        List.replicate
          ((3 - j * c2st₁.stream_info.max_block_frames) * 1) 0 := by
  have hp : process_interleaved (fun _ _ => [(7 : ℚ)]) c2st [] [9, 9, 9]
      0 1 3 = some c2r := by decide
  have h := @process_interleaved_stop_mid_call Unit Unit
    (fun _ _ => [(7 : ℚ)]) c2st c2st₁ [] [9, 9, 9] 0 1 3 c2r (by decide)
    (by decide) (by decide) (by decide) (by decide) (by decide) (by decide)
    hp (by decide)
  exact ⟨hp, h.1, h.2⟩

end Firewheel
